import Mathlib

/-!
Verification development for the `office_box` vendor risk-review pipeline.

The Python scripts under `scripts/` and `utils/` are shallowly embedded:
pure text processing is modelled over `List Char` / `String`, file-system
and git effects as explicit state records, and the remote task-runner as
an oracle argument.  Each definition mirrors one source function and is
named after it (prefixed by its module where two scripts define the same
name).  String-processing primitives mirror the exact CPython semantics
(regex backtracking specialised to the concrete patterns appearing in the
source, `str.strip`, `str.title`, `urllib.parse.quote`) restricted to the
character classes those patterns mention.
-/

set_option maxRecDepth 8000

/-- The whitespace characters of Python's `\s` regex class and of
`str.strip()` for ASCII text: space, tab, newline, carriage return,
vertical tab, form feed. -/
def pySpace (c : Char) : Bool :=
  c == ' ' || c == '\t' || c == '\n' || c == '\r' || c == '\x0b' || c == '\x0c'

/-- Python `s.strip(chars)`: drop characters satisfying `p` from both ends. -/
def pyStrip (p : Char → Bool) (s : List Char) : List Char :=
  ((s.dropWhile p).reverse.dropWhile p).reverse

/-- Lower-cased character list, modelling Python `str.lower()` on ASCII text. -/
def lowerL (s : String) : List Char :=
  s.data.map Char.toLower

/-- Naive substring test: does `pat` occur contiguously inside `s`? -/
def containsSub (pat : List Char) : List Char → Bool
  | [] => pat.isEmpty
  | c :: rest => pat.isPrefixOf (c :: rest) || containsSub pat rest

/-- Lexicographic comparison of character lists by code point, the order
Python uses when comparing the `str` sort keys in `list.sort`. -/
def lexLe : List Char → List Char → Bool
  | [], _ => true
  | _ :: _, [] => false
  | a :: as, b :: bs =>
    if a.toNat < b.toNat then true
    else if b.toNat < a.toNat then false
    else lexLe as bs

/-- Python `str.title()`: the first letter of every alphabetic run is
upper-cased and the following letters lower-cased.  `go` carries whether the
previous character was alphabetic. -/
def pyTitleGo (prevAlpha : Bool) : List Char → List Char
  | [] => []
  | c :: rest =>
    if c.isAlpha then
      (if prevAlpha then c.toLower else c.toUpper) :: pyTitleGo true rest
    else c :: pyTitleGo false rest

/-- Python `str.title()` on a character list. -/
def pyTitle (s : List Char) : List Char :=
  pyTitleGo false s

/-- Upper-case hexadecimal digit, as produced by `urllib.parse.quote`. -/
def hexDigit (n : Nat) : Char :=
  if n < 10 then Char.ofNat ('0'.toNat + n) else Char.ofNat ('A'.toNat + n - 10)

/-- UTF-8 byte sequence of a code point, as `urllib.parse.quote` encodes
non-ASCII characters before percent-encoding. -/
def utf8Bytes (n : Nat) : List Nat :=
  if n < 0x80 then [n]
  else if n < 0x800 then [0xC0 + n / 0x40, 0x80 + n % 0x40]
  else if n < 0x10000 then
    [0xE0 + n / 0x1000, 0x80 + (n / 0x40) % 0x40, 0x80 + n % 0x40]
  else
    [0xF0 + n / 0x40000, 0x80 + (n / 0x1000) % 0x40, 0x80 + (n / 0x40) % 0x40, 0x80 + n % 0x40]

/-- Bytes `urllib.parse.quote` leaves unescaped with the default
`safe='/'`: ASCII letters, digits, `_ . - ~` and `/`. -/
def quoteSafeByte (b : Nat) : Bool :=
  (0x41 ≤ b && b ≤ 0x5A) || (0x61 ≤ b && b ≤ 0x7A) || (0x30 ≤ b && b ≤ 0x39) ||
  b == 0x5F || b == 0x2E || b == 0x2D || b == 0x7E || b == 0x2F

/-- Percent-encoding of one byte. -/
def quoteByte (b : Nat) : List Char :=
  if quoteSafeByte b then [Char.ofNat b] else ['%', hexDigit (b / 16), hexDigit (b % 16)]

/-- Python `urllib.parse.quote` with the default `safe='/'`, over a character list. -/
def pyQuote (s : List Char) : List Char :=
  s.flatMap (fun c => (utf8Bytes c.toNat).flatMap quoteByte)

/-! ## `discover_documents.create_safe_filename` -/

/-- The character class `[<>:"/\\|?*\s]` replaced by `_` in
`create_safe_filename`. -/
def badFileChar (c : Char) : Bool :=
  c == '<' || c == '>' || c == ':' || c == '"' || c == '/' || c == '\\' ||
  c == '|' || c == '?' || c == '*' || pySpace c

/-- Embeds `re.sub(r'[<>:"/\\|?*\s]+', '_', name)`: every maximal run of bad
characters becomes a single underscore.  `prevBad` records whether the
previous character belonged to a run already replaced. -/
def collapseBadGo (prevBad : Bool) : List Char → List Char
  | [] => []
  | c :: rest =>
    if badFileChar c then
      (if prevBad then ([] : List Char) else ['_']) ++ collapseBadGo true rest
    else c :: collapseBadGo false rest

/-- The characters stripped by `.strip('._ ')` in `create_safe_filename`. -/
def stripDotChar (c : Char) : Bool :=
  c == '.' || c == '_' || c == ' '

/-- The sanitised core of `create_safe_filename`: collapse bad characters,
strip `._ ` from both ends, substitute `unnamed_document` for an empty
result, truncate to 100 characters. -/
def safeNameCore (name : List Char) : List Char :=
  let s := pyStrip stripDotChar (collapseBadGo false name)
  let s := if s.isEmpty then "unnamed_document".data else s
  s.take 100

/-- Embeds `create_safe_filename(name, issue_number)` from
`scripts/discover_documents.py`: returns `issue-<N>-<sanitised name>.txt`. -/
def create_safe_filename (name : String) (issue_number : String) : String :=
  String.mk ("issue-".data ++ issue_number.data ++ "-".data ++ safeNameCore name.data ++ ".txt".data)

/-! ## `commit_approved_vendor.update_central_json`: review dates

The script imports only `datetime` from the `datetime` module, yet line 113
evaluates `timedelta(days=review_days)`.  That name is unbound, so a
`NameError` is raised inside the `try` block and the `except Exception`
handler assigns the placeholder `"N/A"` to both dates.  The definitions
below embed both the risk-to-days table that the `try` block computes
before failing (lines 106-111) and the date arithmetic the block would
perform if `timedelta` were imported, so the intended and the actual
behaviour can be compared. -/

/-- Gregorian calendar date. -/
structure RDate where
  y : Nat
  m : Nat
  d : Nat
deriving DecidableEq

/-- Gregorian leap-year rule. -/
def isLeap (y : Nat) : Bool :=
  (y % 4 == 0 && y % 100 != 0) || (y % 400 == 0)

/-- Number of days in a month. -/
def daysInMonth (y m : Nat) : Nat :=
  if m = 2 then (if isLeap y then 29 else 28)
  else if m = 4 ∨ m = 6 ∨ m = 9 ∨ m = 11 then 30
  else 31

/-- Successor day in the Gregorian calendar. -/
def nextDay (x : RDate) : RDate :=
  if x.d < daysInMonth x.y x.m then ⟨x.y, x.m, x.d + 1⟩
  else if x.m < 12 then ⟨x.y, x.m + 1, 1⟩
  else ⟨x.y + 1, 1, 1⟩

/-- Python `date + timedelta(days=n)`. -/
def addDays : RDate → Nat → RDate
  | x, 0 => x
  | x, n + 1 => addDays (nextDay x) n

/-- Zero-padded two-digit decimal, as in `strftime("%m")` / `strftime("%d")`. -/
def pad2 (n : Nat) : String :=
  if n < 10 then "0" ++ toString n else toString n

/-- Python `strftime("%Y-%m-%d")`. -/
def fmtDate (x : RDate) : String :=
  toString x.y ++ "-" ++ pad2 x.m ++ "-" ++ pad2 x.d

/-- The review interval table of `update_central_json` (lines 106-111):
`risk = summary_data.get("risk_rating", "Medium").lower()`, 180 days for
high risk, 730 for low, 365 otherwise. -/
def riskDays (risk_rating : Option String) : Nat :=
  let r := lowerL (risk_rating.getD "Medium")
  if r = "high".data then 180
  else if r = "low".data then 730
  else 365

/-- The dates the `try` block of `update_central_json` would store if
`timedelta` were importable: `last_review_date` is the issue close date,
`next_review_date` is that date plus `riskDays`. -/
def intendedReviewDates (closed : RDate) (risk_rating : Option String) : String × String :=
  (fmtDate closed, fmtDate (addDays closed (riskDays risk_rating)))

/-- The dates `update_central_json` actually stores.  The `try` block
assigns `last_review_date`, computes `review_days`, then evaluates
`timedelta(days=review_days)`; since only `datetime` is imported from the
`datetime` module, `timedelta` is an unbound name, the block raises
`NameError`, and the handler (lines 118-122) overwrites both fields with
`"N/A"`.  The `Except` value makes the aborted control flow explicit. -/
def actualReviewDates (closed : RDate) (risk_rating : Option String) : String × String :=
  let attempt : Except Unit (String × String) := do
    let _last := fmtDate closed
    let _days := riskDays risk_rating
    throw ()
  match attempt with
  | .ok r => r
  | .error _ => ("N/A", "N/A")

/-! ## The central vendor registry (`update_central_json`, two versions)

A registry record is a JSON object; only its `processor_name` key matters
to the upsert, so the remaining fields are carried opaquely in `payload`.
`processor_name : Option String` models `record.get("processor_name")`,
which is `None` when the key is absent. -/

/-- One element of `eng/data-processors.json` /
`general_vendors/all-general-vendors.json`. -/
structure VRecord where
  processor_name : Option String
  payload : String
deriving DecidableEq

/-- The sort key `x.get("processor_name", "").lower()` used by
`commit_approved_vendor.update_central_json`. -/
def recKey (r : VRecord) : List Char :=
  lowerL (r.processor_name.getD "")

/-- The upsert loop shared by both versions of `update_central_json`:
replace the first record whose `processor_name` equals the incoming name,
else append the new record at the end. -/
def upsertRecord (name : String) (newRec : VRecord) : List VRecord → List VRecord
  | [] => [newRec]
  | r :: rest =>
    if r.processor_name = some name then newRec :: rest
    else r :: upsertRecord name newRec rest

/-- The array written back by `commit_approved_vendor.update_central_json`
(lines 137-153): upsert, then `all_records.sort(key=lambda x:
x.get("processor_name", "").lower())`. -/
def commitCentralArray (records : List VRecord) (name : String) (summary : VRecord) : List VRecord :=
  (upsertRecord name summary records).mergeSort (fun a b => lexLe (recKey a) (recKey b))

/-- The array written back by `update_existing_vendor.update_central_json`
(lines 160-173): the same upsert, with no sorting step. -/
def existingCentralArray (records : List VRecord) (name : String) (summary : VRecord) : List VRecord :=
  upsertRecord name summary records

/-! ## `discover_documents` stage 2: de-duplication -/

/-- One `document` object from a discovery-task response.  Every field is
optional, mirroring `dict.get` on the raw JSON. -/
structure DiscDoc where
  link_type : Option String
  absolute_url : Option String
  document_name : Option String
  relevance_status : Option String
  context_quote : Option String
deriving DecidableEq

/-- A discovery result item.  `none` models a malformed item: not a dict,
or lacking the `"document"` key, or with a non-dict `"document"` value;
the loop skips those. -/
abbrev DiscItem := Option DiscDoc

/-- The de-duplication loop of `discover_documents.main` (lines 458-485).
`seenL` is the set of already-seen linked URLs, `seenU` the set of
already-seen lower-cased unlinked names; returns the unique linked and
unique unlinked documents in discovery order. -/
def dedupDocs (seenL : List String) (seenU : List (List Char)) :
    List DiscItem → List DiscDoc × List DiscDoc
  | [] => ([], [])
  | none :: rest => dedupDocs seenL seenU rest
  | some doc :: rest =>
    if doc.link_type = some "linked" then
      match doc.absolute_url with
      | none => dedupDocs seenL seenU rest
      | some u =>
        if u = "" then dedupDocs seenL seenU rest
        else if seenL.contains u then dedupDocs seenL seenU rest
        else
          let p := dedupDocs (u :: seenL) seenU rest
          (doc :: p.1, p.2)
    else if doc.link_type = some "unlinked" then
      match doc.document_name with
      | none => dedupDocs seenL seenU rest
      | some n =>
        if n = "" then dedupDocs seenL seenU rest
        else if seenU.contains (lowerL n) then dedupDocs seenL seenU rest
        else
          let p := dedupDocs seenL (lowerL n :: seenU) rest
          (p.1, doc :: p.2)
    else dedupDocs seenL seenU rest

/-- The seen-set seeding of lines 450-454: the main T&Cs URL (head of
`legal_urls`) and the main Security URL (head of `security_urls`) are
pre-inserted so the spider's own output cannot re-admit them. -/
def seedUrls (legal_urls security_urls : List String) : List String :=
  (legal_urls.take 1) ++ (security_urls.take 1)

/-- Stage 2 de-duplication over the combined discovery output. -/
def dedupMain (legal_urls security_urls : List String) (allDocs : List DiscItem) :
    List DiscDoc × List DiscDoc :=
  dedupDocs (seedUrls legal_urls security_urls) [] allDocs

/-! ## File-system / git state and `save_and_commit_source_text` -/

/-- The externally visible state touched by `save_and_commit_source_text`:
the files inside `_vendor_analysis_source` (name, contents) and the
sequence of filenames for which a git add/commit/push was attempted. -/
structure FileSys where
  files : List (String × String)
  commitAttempts : List String
deriving DecidableEq

/-- Write (create or overwrite) one file. -/
def writeFile (files : List (String × String)) (name text : String) : List (String × String) :=
  if files.any (fun p => p.1 == name) then
    files.map (fun p => if p.1 == name then (name, text) else p)
  else files ++ [(name, text)]

/-- The guard `if not text or not text.strip()` of
`save_and_commit_source_text` (line 71): true iff the text is empty or
consists purely of whitespace. -/
def isBlankText (text : String) : Bool :=
  text.data.isEmpty || (pyStrip pySpace text.data).isEmpty

/-- Embeds `save_and_commit_source_text(text, ..., filename)` from
`scripts/discover_documents.py` (lines 64-141).  The directory `mkdir`
touches no file; when the text is blank the function returns before any
file write or git call; otherwise the file is written and the git
add/commit sequence for that file is attempted (the git outcome itself
depends on repository state outside this model). -/
def save_and_commit_source_text (text : String) (filename : String) (fs : FileSys) : FileSys :=
  if isBlankText text then fs
  else
    { files := writeFile fs.files filename text,
      commitAttempts := fs.commitAttempts ++ [filename] }

/-! ## `discover_documents` stage 2: fetch/classify loop -/

/-- One element of a classifier response's `relevance_categories` list:
either a dict (whose `"category"` key may be absent, defaulting to
`"none"`) or a bare string; other shapes are ignored by the formatter. -/
inductive CatItem where
  | cdict (category : Option String)
  | cstr (s : String)
deriving DecidableEq

/-- The outcome of one `run_rb_task` classifier invocation, as consumed by
the stage-2 loop: `isError` covers a falsy result or one carrying
`is_error`; `text` is `extract_text_from_run_data`'s result
(`run_data.submitted.document_url`, empty when missing); `cats` is
`response.relevance_categories` (`none` when the key is absent). -/
structure RunOutcome where
  isError : Bool
  text : String
  cats : Option (List CatItem)
deriving DecidableEq

/-- One record appended to `classified_docs_for_checklist` (lines 528-533). -/
structure ChecklistEntry where
  document_name : String
  document_url : Option String
  relevance_status : String
  relevance_categories : List CatItem
deriving DecidableEq

/-- State threaded through the stage-2 loop: the file system, the URLs for
which the classifier task has been invoked (in order), and the checklist
entries accumulated so far. -/
structure FetchState where
  fs : FileSys
  fetched : List (Option String)
  entries : List ChecklistEntry
deriving DecidableEq

/-- The body of the stage-2 loop (lines 490-533) for one unique linked
document: the classifier is always invoked with the document URL; on
success the fetched text is saved (and committed) under the deterministic
filename and the response categories are used, on failure the text is
empty and the categories default to `[{"category": "none"}]`; either way
an entry is appended to `classified_docs_for_checklist`. -/
def processOneLinkedDoc (oracle : Option String → RunOutcome) (issue_number : String)
    (doc : DiscDoc) (st : FetchState) : FetchState :=
  let doc_url := doc.absolute_url
  let doc_name := doc.document_name.getD "Unknown Document"
  let relevance_status := doc.relevance_status.getD "irrelevant"
  let run := oracle doc_url
  let fs' :=
    if !run.isError then
      save_and_commit_source_text run.text (create_safe_filename doc_name issue_number) st.fs
    else st.fs
  let relevance_dicts :=
    if !run.isError then run.cats.getD [CatItem.cdict (some "none")]
    else [CatItem.cdict (some "none")]
  { fs := fs',
    fetched := st.fetched ++ [doc_url],
    entries := st.entries ++ [{ document_name := doc_name,
                                document_url := doc_url,
                                relevance_status := relevance_status,
                                relevance_categories := relevance_dicts }] }

/-- The stage-2 loop over all unique linked documents. -/
def processLinkedDocs (oracle : Option String → RunOutcome) (issue_number : String)
    (docs : List DiscDoc) (st : FetchState) : FetchState :=
  docs.foldl (fun s d => processOneLinkedDoc oracle issue_number d s) st

/-- The checklist entry the stage-2 loop appends for one document; it
depends only on the document and the classifier oracle, never on the
file-system state. -/
def entryOf (oracle : Option String → RunOutcome) (doc : DiscDoc) : ChecklistEntry :=
  let run := oracle doc.absolute_url
  { document_name := doc.document_name.getD "Unknown Document",
    document_url := doc.absolute_url,
    relevance_status := doc.relevance_status.getD "irrelevant",
    relevance_categories :=
      if !run.isError then run.cats.getD [CatItem.cdict (some "none")]
      else [CatItem.cdict (some "none")] }

/-! ## `discover_documents.format_documents_as_checklist` -/

/-- The file link used throughout the checklist:
`https://github.com/<repo>/blob/main/` followed by the URL-quoted relative
path `_vendor_analysis_source/<safe filename>`. -/
def ghFileUrl (repo issue docName : String) : List Char :=
  "https://github.com/".data ++ repo.data ++ "/blob/main/".data ++
    pyQuote ("_vendor_analysis_source/".data ++ (create_safe_filename docName issue).data)

/-- The leading `- [<box>] ` of every checklist line. -/
def boxMark (box : Char) : List Char :=
  ['-', ' ', '[', box, ']', ' ']

/-- The checkbox state of a classified document (lines 228-231): `x` iff
the discovery `relevance_status` is `relevant`. -/
def checkboxChar (relevance_status : String) : Char :=
  if relevance_status = "relevant" then 'x' else ' '

/-- A main T&Cs line (lines 170-176): always pre-checked, tagged Legal. -/
def renderMainLegalItem (repo issue url : String) : List Char :=
  boxMark 'x' ++ "**Legal**: [`Main T&Cs`](".data ++ ghFileUrl repo issue "Main T&Cs" ++
    ") (`".data ++ url.data ++ "`)".data

/-- A main Security line (lines 179-184): always pre-checked, tagged Security. -/
def renderMainSecurityItem (repo issue url : String) : List Char :=
  boxMark 'x' ++ "**Security**: [`Main Security Page`](".data ++
    ghFileUrl repo issue "Main Security Page" ++ ") (`".data ++ url.data ++ "`)".data

/-- Category extraction (lines 204-216): take `"category"` values of dict
items (absent key defaults to `"none"`); if no dict items exist fall back
to bare-string items; drop `"none"` unless nothing else remains. -/
def finalCategories (cats : List CatItem) : List String :=
  let categories := cats.filterMap (fun i => match i with
    | CatItem.cdict c => some (c.getD "none")
    | CatItem.cstr _ => none)
  let categories := if categories.isEmpty then
      cats.filterMap (fun i => match i with
        | CatItem.cstr s => some s
        | CatItem.cdict _ => none)
    else categories
  let filtered := categories.filter (fun c => c ≠ "none")
  if filtered.isEmpty then ["none"] else filtered

/-- The tag of a classified line (lines 221-225): `None` when the final
categories contain `"none"`, else the title-cased categories joined by
a comma. -/
def tagOf (cats : List CatItem) : List Char :=
  let final := finalCategories cats
  if final.contains "none" then "None".data
  else List.intercalate ", ".data (final.map (fun c => pyTitle c.data))

/-- A classified-document line (lines 188-236) for an entry whose URL `u`
is present and non-empty. -/
def renderClassifiedItem (repo issue : String) (e : ChecklistEntry) (u : String) : List Char :=
  boxMark (checkboxChar e.relevance_status) ++ "**".data ++ tagOf e.relevance_categories ++
    "**: [`".data ++ e.document_name.data ++ "`](".data ++ ghFileUrl repo issue e.document_name ++
    ") (`".data ++ u.data ++ "`)".data

/-- All classified lines; an entry with a missing or empty URL is skipped
(`if not original_url: continue`, line 197). -/
def classifiedItems (repo issue : String) (entries : List ChecklistEntry) : List (List Char) :=
  entries.filterMap (fun e => match e.document_url with
    | none => none
    | some u => if u = "" then none else some (renderClassifiedItem repo issue e u))

/-- An unlinked-reference line (lines 240-252): never pre-checked, tagged
`Awaiting Document` with the title-cased relevance status, quote truncated
to 150 characters. -/
def renderUnlinkedItem (d : DiscDoc) : List Char :=
  let quote := (d.context_quote.getD "No context provided.").data
  let quote := if 150 < quote.length then quote.take 150 ++ "...".data else quote
  boxMark ' ' ++ "**Awaiting Document (".data ++
    pyTitle (d.relevance_status.getD "irrelevant").data ++ ")**: `".data ++
    (d.document_name.getD "Unknown Reference").data ++
    "`\n  > *Mentioned in: \"".data ++ quote ++ "\"*".data

/-- Embeds `format_documents_as_checklist` (lines 161-260): the online section
lists main legal, then main security, then classified lines; the offline
section appears only when unlinked references exist. -/
def format_documents_as_checklist (main_legal : List String) (classified : List ChecklistEntry)
    (unlinked : List DiscDoc) (main_security : List String) (repo issue : String) : List Char :=
  let online := main_legal.map (renderMainLegalItem repo issue) ++
    main_security.map (renderMainSecurityItem repo issue) ++
    classifiedItems repo issue classified
  let offline := unlinked.map renderUnlinkedItem
  let onlineSection :=
    "### Online Documents Found\n*(Links point to the fetched text saved in the repo)*\n\n".data ++
      List.intercalate ['\n'] online
  let offlineSection :=
    if offline.isEmpty then ([] : List Char)
    else "\n### Offline / Unlinked References\n*(Please upload these manually)*\n\n".data ++
      List.intercalate ['\n'] offline
  onlineSection ++ offlineSection

/-- Stages 2 and 3 of `discover_documents.main` (lines 442-563) as one
function: de-duplicate the combined discovery output, fetch/classify every
unique linked document (threading the file-system state through the
saves), and render the final checklist from the seed URLs, the classified
entries and the unique unlinked references. -/
def discoverStage2Checklist (oracle : Option String → RunOutcome) (repo issue : String)
    (legal_urls security_urls : List String) (allDocs : List DiscItem)
    (fs : FileSys) : FileSys × List Char :=
  let p := dedupMain legal_urls security_urls allDocs
  let st := processLinkedDocs oracle issue p.1 { fs := fs, fetched := [], entries := [] }
  (st.fs, format_documents_as_checklist legal_urls st.entries p.2 security_urls repo issue)

/-! ## `utils/github_api.parse_form_field`

The pattern `rf'### {re.escape(field_name)}\s*\n\s*(.*?)(?=\n### |\Z)'`
with `IGNORECASE | DOTALL` is embedded by specialising the backtracking
search: at the leftmost position where `### <label>` matches
case-insensitively and the following whitespace run contains a newline,
the first `\s*\n` consumes through the last newline of that run (greedy
with backtracking), the second `\s*` consumes the following whitespace run
(greedy; the later components never fail, since `\Z` always succeeds), and
the lazy group captures up to the first occurrence of `"\n### "` or the
end of the string.  The captured text is stripped, then HTML tags are
removed by `re.sub(r'<[^>]+>', '', value)`. -/

/-- Case-insensitive character equality, as under `re.IGNORECASE` on
ASCII text. -/
def ciEq (a b : Char) : Bool :=
  a.toLower == b.toLower

/-- Does `pat` match case-insensitively at the head of `s`? -/
def ciLeads : List Char → List Char → Bool
  | [], _ => true
  | _ :: _, [] => false
  | p :: ps, c :: cs => ciEq p c && ciLeads ps cs

/-- The `\s*\n` step after the heading: succeeds iff the leading
whitespace run of `s` contains a newline, consuming through the last
newline of the run (the greedy choice that lets the mandatory `\n`
match). -/
def afterHeadingWs (s : List Char) : Option (List Char) :=
  let run := s.takeWhile pySpace
  if run.contains '\n' then
    some (s.drop (run.length - (run.reverse.takeWhile (fun c => c != '\n')).length))
  else none

/-- The lazy group `(.*?)(?=\n### |\Z)`: the shortest prefix after which
the text starts with `"\n### "` or ends. -/
def captureUntil : List Char → List Char
  | [] => []
  | c :: rest => if "\n### ".data.isPrefixOf (c :: rest) then [] else c :: captureUntil rest

/-- Embeds `re.search` specialised to the heading pattern: scan positions left to
right; a position matches when the heading matches case-insensitively
there and the `\s*\n` step succeeds after it.  Returns the text after the
consumed `\s*\n`. -/
def searchHeading (pat : List Char) : List Char → Option (List Char)
  | [] => none
  | c :: rest =>
    if ciLeads pat (c :: rest) then
      match afterHeadingWs ((c :: rest).drop pat.length) with
      | some rem => some rem
      | none => searchHeading pat rest
    else searchHeading pat rest

/-- Embeds `re.sub(r'<[^>]+>', '', value)` as a left-to-right scan.  `buf` holds
the characters read since an opening `<` (in reverse); a closing `>` with
a non-empty buffer deletes the whole tag, `<>` and an unterminated `<` are
kept literally, exactly as the regex leaves them unmatched. -/
def removeHtmlGo : Option (List Char) → List Char → List Char
  | none, [] => []
  | some buf, [] => '<' :: buf.reverse
  | none, c :: rest =>
    if c == '<' then removeHtmlGo (some []) rest else c :: removeHtmlGo none rest
  | some buf, c :: rest =>
    if c == '>' then
      if buf.isEmpty then '<' :: '>' :: removeHtmlGo none rest
      else removeHtmlGo none rest
    else removeHtmlGo (some (c :: buf)) rest

/-- Embeds `parse_form_field(body, field_name)` from `utils/github_api.py`
(lines 147-156): the text block after `### <field_name>` up to the next
heading or end of string, stripped and with HTML tags removed; `"N/A"`
when no heading matches. -/
def parse_form_field (body field_name : String) : String :=
  match searchHeading ("### ".data ++ field_name.data) body.data with
  | none => "N/A"
  | some rem =>
    let q := rem.drop ((rem.takeWhile pySpace).length)
    String.mk (removeHtmlGo none (pyStrip pySpace (captureUntil q)))

/-! ## The four `run_rb_task` versions -/

/-- A fragment of decoded JSON, sufficient for the task-run payloads. -/
inductive JVal where
  | jstr (s : String)
  | jbool (b : Bool)
  | jobj (fields : List (String × JVal))
  | jnull

/-- Python `dict.get(key, default)` on a JSON object. -/
def JVal.getField (j : JVal) (key : String) (dflt : JVal) : JVal :=
  match j with
  | .jobj fields =>
    match fields.lookup key with
    | some v => v
    | none => dflt
  | _ => dflt

/-- Is `key` present at all? -/
def JVal.hasKey (j : JVal) (key : String) : Bool :=
  match j with
  | .jobj fields => fields.any (fun p => p.1 == key)
  | _ => false

/-- Does the value carry `is_error: true`? -/
def JVal.isErrorTagged (j : JVal) : Bool :=
  match j.getField "is_error" .jnull with
  | .jbool true => true
  | _ => false

/-- The observable outcome of the one `requests.post` a `run_rb_task`
performs: either the request raises (connection error, timeout, ...) or a
response with a status code and decoded JSON body arrives.
`raise_for_status()` raises exactly when the status is 400 or above. -/
inductive HttpOutcome where
  | transportError (msg : String)
  | httpResponse (status : Nat) (body : JVal)

/-- Does the outcome fail (transport error or non-2xx/3xx status)? -/
def HttpOutcome.isFailure : HttpOutcome → Bool
  | .transportError _ => true
  | .httpResponse s _ => 400 ≤ s

/-- Embeds `run_rb_task` from `utils/rightbrain_api.py` (lines 413-442): missing
task id gives a tagged error; the broad `except Exception` turns any
transport failure or `raise_for_status` exception into
`{"error": ..., "is_error": True}`; a 2xx response returns the full
decoded JSON. -/
def utils_run_rb_task (task_id : String) (o : HttpOutcome) : JVal :=
  if task_id = "" then .jobj [("error", .jstr "Missing configuration"), ("is_error", .jbool true)]
  else
    match o with
    | .transportError m => .jobj [("error", .jstr m), ("is_error", .jbool true)]
    | .httpResponse s body =>
      if 400 ≤ s then .jobj [("error", .jstr ("HTTP error " ++ toString s)), ("is_error", .jbool true)]
      else body

/-- Embeds `run_rb_task` from `scripts/rightbrain_api.py` (lines 175-228): same
contract as the utils version, with a `details` field in the error
object. -/
def scripts_run_rb_task (task_name task_id : String) (o : HttpOutcome) : JVal :=
  if task_id = "" then
    .jobj [("error", .jstr "Missing configuration"),
           ("details", .jstr "Org/Project/Task ID missing."), ("is_error", .jbool true)]
  else
    match o with
    | .transportError m =>
      .jobj [("error", .jstr (task_name ++ " failed")), ("details", .jstr m), ("is_error", .jbool true)]
    | .httpResponse s body =>
      if 400 ≤ s then
        .jobj [("error", .jstr (task_name ++ " failed")),
               ("details", .jstr ("HTTP error " ++ toString s)), ("is_error", .jbool true)]
      else body

/-- Embeds `run_rb_task` from `scripts/consolidate_and_analyze.py` (lines 60-87):
a 2xx response returns only `response.json().get("response", {})`, and a
failure returns `{"error": ..., "details": ...}` with no `is_error`
key. -/
def consolidate_run_rb_task (task_name : String) (o : HttpOutcome) : JVal :=
  match o with
  | .transportError m =>
    .jobj [("error", .jstr (task_name ++ " failed")), ("details", .jstr m)]
  | .httpResponse s body =>
    if 400 ≤ s then
      .jobj [("error", .jstr (task_name ++ " failed")),
             ("details", .jstr ("HTTP error " ++ toString s))]
    else body.getField "response" (.jobj [])

/-- Embeds `run_rb_task` from `scripts/update_existing_vendor.py` (lines 55-64):
no try/except at all, so any transport failure or `raise_for_status`
exception propagates to the caller; a 2xx response returns
`response.json().get("response")`. -/
def update_existing_run_rb_task (o : HttpOutcome) : Except String JVal :=
  match o with
  | .transportError m => .error m
  | .httpResponse s body =>
    if 400 ≤ s then .error ("HTTP error " ++ toString s)
    else .ok (body.getField "response" .jnull)

/-- Does the modelled call raise an exception? -/
def raisesExn (e : Except String JVal) : Bool :=
  match e with
  | .error _ => true
  | .ok _ => false

/-! ## Helper lemmas -/

theorem mem_pyStrip {p : Char → Bool} {s : List Char} {c : Char} (h : c ∈ pyStrip p s) : c ∈ s := by
  unfold pyStrip at h
  rw [List.mem_reverse] at h
  have h1 := (List.dropWhile_sublist (l := (s.dropWhile p).reverse) p).mem h
  rw [List.mem_reverse] at h1
  exact (List.dropWhile_sublist p).mem h1

theorem collapseBadGo_no_bad (prevBad : Bool) (l : List Char) :
    ∀ c ∈ collapseBadGo prevBad l, badFileChar c = false := by
  induction l generalizing prevBad with
  | nil => intro c hc; simp [collapseBadGo] at hc
  | cons x xs ih =>
    intro c hc
    by_cases hx : badFileChar x
    · cases prevBad with
      | true =>
        have he : collapseBadGo true (x :: xs) = collapseBadGo true xs := by
          simp [collapseBadGo, hx]
        rw [he] at hc
        exact ih true c hc
      | false =>
        have he : collapseBadGo false (x :: xs) = '_' :: collapseBadGo true xs := by
          simp [collapseBadGo, hx]
        rw [he] at hc
        rcases List.mem_cons.mp hc with h | h
        · subst h; decide
        · exact ih true c h
    · have he : collapseBadGo prevBad (x :: xs) = x :: collapseBadGo false xs := by
        simp [collapseBadGo, hx]
      rw [he] at hc
      rcases List.mem_cons.mp hc with h | h
      · subst h; simpa using hx
      · exact ih false c h

theorem safeNameCore_no_bad (name : List Char) :
    ∀ c ∈ safeNameCore name, badFileChar c = false := by
  intro c hc
  unfold safeNameCore at hc
  have hc' := List.take_subset _ _ hc
  by_cases he : (pyStrip stripDotChar (collapseBadGo false name)).isEmpty
  · rw [if_pos he] at hc'
    have hall : ∀ x ∈ "unnamed_document".data, badFileChar x = false := by decide
    exact hall c hc'
  · rw [if_neg he] at hc'
    exact collapseBadGo_no_bad false name c (mem_pyStrip hc')

/-! ## Claim C1 -/

/-- C1: the spec says `update_central_json` stores `next_review_date =
last_review_date + 180d/365d/730d` by risk (e.g. 2025-01-01 + High →
2025-06-30).  The risk table and the example date arithmetic are indeed
what the `try` block encodes (`intendedReviewDates`), but the code
evaluates the unimported name `timedelta`, so the block aborts with a
`NameError` and both dates are stored as `"N/A"` (`actualReviewDates`):
the code contradicts its own computation and log statements. -/
theorem c1_review_dates_code_bug :
    actualReviewDates ⟨2025, 1, 1⟩ (some "High") = ("N/A", "N/A") ∧
    intendedReviewDates ⟨2025, 1, 1⟩ (some "High") = ("2025-01-01", "2025-06-30") ∧
    riskDays (some "High") = 180 ∧ riskDays (some "Medium") = 365 ∧
    riskDays none = 365 ∧ riskDays (some "Low") = 730 ∧
    (("N/A", "N/A") : String × String) ≠ ("2025-01-01", "2025-06-30") := by
  exact ⟨rfl, by decide, by decide, by decide, by decide, by decide, by decide⟩

/-! ## Claim C7 -/

/-- C7 (amended): a discovered document's local filename is the
deterministic, sanitised function `issue-<N>-<sanitised doc name>.txt` of
the issue number and the document name alone; the sanitised core contains
no forbidden filename character and is at most 100 characters.  (The
supplier name does not appear in the filename.) -/
theorem c7_filename_layout_sanitized (name issue_number : String) :
    create_safe_filename name issue_number =
      String.mk ("issue-".data ++ issue_number.data ++ "-".data ++
        safeNameCore name.data ++ ".txt".data) ∧
    (∀ c ∈ safeNameCore name.data, badFileChar c = false) ∧
    (safeNameCore name.data).length ≤ 100 := by
  refine ⟨rfl, safeNameCore_no_bad name.data, ?_⟩
  unfold safeNameCore
  exact List.length_take_le _ _

/-- C7 witness: the layout and sanitisation at a concrete input. -/
theorem c7_filename_layout_witness :
    create_safe_filename "SOC 2 Report" "12" = "issue-12-SOC_2_Report.txt" ∧
    badFileChar '_' = false := by
  have h := c7_filename_layout_sanitized "SOC 2 Report" "12"
  exact ⟨by rw [h.1]; decide, h.2.1 '_' (by decide)⟩

/-- C7 counterexample: the claim's layout
`<Supplier>-issue-<N>-<Doc>.txt` is wrong — the computed filename starts
with `issue-` itself and carries no supplier component, so it differs
from the claimed layout for any non-empty supplier (shown here for
supplier `Acme`). -/
theorem c7_no_supplier_counterexample :
    create_safe_filename "Terms of Service" "46" = "issue-46-Terms_of_Service.txt" ∧
    "issue-46-Terms_of_Service.txt" ≠ "Acme-issue-46-Terms_of_Service.txt" ∧
    "issue-".data.isPrefixOf "issue-46-Terms_of_Service.txt".data = true := by
  exact ⟨by decide, by decide, by decide⟩

/-! ## Claim C10 -/

/-- C10: `save_and_commit_source_text` on empty or whitespace-only text
returns with the file list and the commit-attempt list unchanged; a file
is written (and a commit attempted) exactly when the text has a
non-whitespace character. -/
theorem c10_blank_save_frame (text filename : String) (fs : FileSys) :
    (isBlankText text = true → save_and_commit_source_text text filename fs = fs) ∧
    (isBlankText text = false →
      (save_and_commit_source_text text filename fs).files = writeFile fs.files filename text ∧
      (save_and_commit_source_text text filename fs).commitAttempts =
        fs.commitAttempts ++ [filename]) := by
  constructor
  · intro h; simp [save_and_commit_source_text, h]
  · intro h; simp [save_and_commit_source_text, h]

/-- C10 witness: a whitespace-only text leaves a concrete state intact. -/
theorem c10_blank_save_witness :
    save_and_commit_source_text "  \n\t " "issue-7-Doc.txt" ⟨[("issue-7-Old.txt", "old")], []⟩ =
      ⟨[("issue-7-Old.txt", "old")], []⟩ :=
  (c10_blank_save_frame "  \n\t " "issue-7-Doc.txt" _).1 (by decide)

/-! ## Claim C2 -/

theorem lexLe_cons (x y : Char) (xs ys : List Char) :
    lexLe (x :: xs) (y :: ys) = true ↔
      (x.toNat < y.toNat ∨ (x.toNat = y.toNat ∧ lexLe xs ys = true)) := by
  constructor
  · intro h
    by_cases hxy : x.toNat < y.toNat
    · exact Or.inl hxy
    · by_cases hyx : y.toNat < x.toNat
      · simp only [lexLe, if_neg hxy, if_pos hyx] at h
        exact absurd h (by decide)
      · refine Or.inr ⟨by omega, ?_⟩
        simpa only [lexLe, if_neg hxy, if_neg hyx] using h
  · intro h
    rcases h with h | ⟨e, hl⟩
    · simp only [lexLe, if_pos h]
    · simp only [lexLe, if_neg (by omega : ¬ x.toNat < y.toNat),
        if_neg (by omega : ¬ y.toNat < x.toNat)]
      exact hl

theorem lexLe_total (a b : List Char) : (lexLe a b || lexLe b a) = true := by
  induction a generalizing b with
  | nil => simp [lexLe]
  | cons x xs ih =>
    cases b with
    | nil => simp [lexLe]
    | cons y ys =>
      rw [Bool.or_eq_true, lexLe_cons, lexLe_cons]
      rcases Nat.lt_trichotomy x.toNat y.toNat with h | h | h
      · exact Or.inl (Or.inl h)
      · rcases Bool.or_eq_true .. |>.mp (ih ys) with hl | hl
        · exact Or.inl (Or.inr ⟨h, hl⟩)
        · exact Or.inr (Or.inr ⟨h.symm, hl⟩)
      · exact Or.inr (Or.inl h)

theorem lexLe_trans (a b c : List Char) (h1 : lexLe a b = true) (h2 : lexLe b c = true) :
    lexLe a c = true := by
  induction a generalizing b c with
  | nil => simp [lexLe]
  | cons x xs ih =>
    cases b with
    | nil => simp [lexLe] at h1
    | cons y ys =>
      cases c with
      | nil => simp [lexLe] at h2
      | cons z zs =>
        rw [lexLe_cons] at h1 h2 ⊢
        rcases h1 with h1 | ⟨e1, l1⟩
        · rcases h2 with h2 | ⟨e2, l2⟩
          · exact Or.inl (by omega)
          · exact Or.inl (by omega)
        · rcases h2 with h2 | ⟨e2, l2⟩
          · exact Or.inl (by omega)
          · exact Or.inr ⟨by omega, ih ys zs l1 l2⟩

theorem upsertRecord_length (name : String) (newRec : VRecord) (records : List VRecord) :
    (upsertRecord name newRec records).length =
      (if (records.map VRecord.processor_name).contains (some name) then records.length
       else records.length + 1) := by
  induction records with
  | nil => simp [upsertRecord]
  | cons r rest ih =>
    by_cases h : r.processor_name = some name
    · simp [upsertRecord, h]
    · simp only [upsertRecord, if_neg h, List.length_cons, List.map_cons, List.contains_cons, ih]
      have hne : (some name == r.processor_name) = false := by
        rw [beq_eq_false_iff_ne]
        intro e
        exact h e.symm
      rw [hne]
      simp only [Bool.false_or]
      by_cases hm : (rest.map VRecord.processor_name).contains (some name) = true
      · rw [if_pos hm, if_pos hm]
      · rw [if_neg hm, if_neg hm]

theorem upsertRecord_append_of_new (name : String) (newRec : VRecord) (records : List VRecord)
    (h : (records.map VRecord.processor_name).contains (some name) = false) :
    upsertRecord name newRec records = records ++ [newRec] := by
  induction records with
  | nil => simp [upsertRecord]
  | cons r rest ih =>
    simp only [List.map_cons, List.contains_cons, Bool.or_eq_false_iff] at h
    have hr : ¬ r.processor_name = some name := by
      intro e
      simp [e] at h
    simp [upsertRecord, hr, ih h.2]

theorem upsertRecord_set_of_mem (name : String) (newRec : VRecord) (records : List VRecord)
    (h : (records.map VRecord.processor_name).contains (some name) = true) :
    ∃ i r0, records.get? i = some r0 ∧ r0.processor_name = some name ∧
      upsertRecord name newRec records = records.set i newRec := by
  induction records with
  | nil => simp at h
  | cons r rest ih =>
    by_cases hr : r.processor_name = some name
    · exact ⟨0, r, rfl, hr, by simp [upsertRecord, hr]⟩
    · have hrest : (rest.map VRecord.processor_name).contains (some name) = true := by
        simp only [List.map_cons, List.contains_cons, Bool.or_eq_true] at h
        rcases h with h | h
        · exact absurd (by simpa using h : some name = r.processor_name).symm hr
        · exact h
      obtain ⟨i, r0, hg, hn, he⟩ := ih hrest
      exact ⟨i + 1, r0, by simpa using hg, hn, by simp [upsertRecord, hr, he]⟩

/-- C2 (amended): both versions of `update_central_json` upsert by
`processor_name` equality — an existing name is replaced in place (the
array length is unchanged and the result is a point update), a new name
is appended (length + 1).  The version in `commit_approved_vendor.py`
additionally writes the array back sorted case-insensitively by name (a
permutation of the upserted array); the version in
`update_existing_vendor.py` writes the upserted array back unsorted. -/
theorem c2_central_upsert (records : List VRecord) (name : String) (summary : VRecord) :
    ((upsertRecord name summary records).length =
      (if (records.map VRecord.processor_name).contains (some name) then records.length
       else records.length + 1)) ∧
    ((records.map VRecord.processor_name).contains (some name) = false →
      upsertRecord name summary records = records ++ [summary]) ∧
    ((records.map VRecord.processor_name).contains (some name) = true →
      ∃ i r0, records.get? i = some r0 ∧ r0.processor_name = some name ∧
        upsertRecord name summary records = records.set i summary) ∧
    List.Pairwise (fun a b => lexLe (recKey a) (recKey b) = true)
      (commitCentralArray records name summary) ∧
    (commitCentralArray records name summary).Perm (upsertRecord name summary records) ∧
    existingCentralArray records name summary = upsertRecord name summary records := by
  refine ⟨upsertRecord_length name summary records,
    upsertRecord_append_of_new name summary records,
    upsertRecord_set_of_mem name summary records, ?_, ?_, rfl⟩
  · exact List.sorted_mergeSort
      (fun a b c hab hbc => lexLe_trans (recKey a) (recKey b) (recKey c) hab hbc)
      (fun a b => lexLe_total (recKey a) (recKey b))
      (upsertRecord name summary records)
  · exact List.mergeSort_perm (upsertRecord name summary records) _

/-- C2 witness: the three upsert behaviours at concrete registries. -/
theorem c2_central_upsert_witness :
    (upsertRecord "a" ⟨some "a", "new"⟩ [⟨some "b", ""⟩, ⟨some "a", "old"⟩]).length = 2 ∧
    upsertRecord "c" ⟨some "c", ""⟩ [⟨some "b", ""⟩] = [⟨some "b", ""⟩, ⟨some "c", ""⟩] := by
  constructor
  · rw [(c2_central_upsert [⟨some "b", ""⟩, ⟨some "a", "old"⟩] "a" ⟨some "a", "new"⟩).1]
    decide
  · exact (c2_central_upsert [⟨some "b", ""⟩] "c" ⟨some "c", ""⟩).2.1 (by decide)

/-- C2 counterexample: the claim also asserts the written-back array is
always sorted case-insensitively by name, but
`update_existing_vendor.update_central_json` never sorts: appending `c`
to the out-of-order registry `[b, a]` writes back `[b, a, c]`, which is
not sorted. -/
theorem c2_unsorted_counterexample :
    existingCentralArray [⟨some "b", ""⟩, ⟨some "a", ""⟩] "c" ⟨some "c", ""⟩ =
      [⟨some "b", ""⟩, ⟨some "a", ""⟩, ⟨some "c", ""⟩] ∧
    ¬ List.Pairwise (fun a b : VRecord => lexLe (recKey a) (recKey b) = true)
      (existingCentralArray [⟨some "b", ""⟩, ⟨some "a", ""⟩] "c" ⟨some "c", ""⟩) := by
  constructor
  · decide
  · intro h
    rw [show existingCentralArray [⟨some "b", ""⟩, ⟨some "a", ""⟩] "c" ⟨some "c", ""⟩ =
      [⟨some "b", ""⟩, ⟨some "a", ""⟩, ⟨some "c", ""⟩] from by decide] at h
    have h1 := (List.pairwise_cons.mp h).1 ⟨some "a", ""⟩ (by simp)
    exact absurd h1 (by decide)

/-! ## Claim C3 -/

theorem dedupDocs_invariant (docs : List DiscItem) :
    ∀ (seenL : List String) (seenU : List (List Char)),
    ((dedupDocs seenL seenU docs).1.filterMap DiscDoc.absolute_url).Nodup ∧
    (∀ u ∈ (dedupDocs seenL seenU docs).1.filterMap DiscDoc.absolute_url,
      seenL.contains u = false) ∧
    (∀ d ∈ (dedupDocs seenL seenU docs).1, d.absolute_url.isSome = true) ∧
    ((dedupDocs seenL seenU docs).2.map (fun d => lowerL (d.document_name.getD ""))).Nodup ∧
    (∀ k ∈ (dedupDocs seenL seenU docs).2.map (fun d => lowerL (d.document_name.getD "")),
      seenU.contains k = false) := by
  induction docs with
  | nil => intro seenL seenU; simp [dedupDocs]
  | cons item rest ih =>
    intro seenL seenU
    cases item with
    | none => simpa only [dedupDocs] using ih seenL seenU
    | some doc =>
      by_cases hlt : doc.link_type = some "linked"
      · cases hu : doc.absolute_url with
        | none => simpa only [dedupDocs, hlt, if_pos, hu] using ih seenL seenU
        | some u =>
          by_cases hu0 : u = ""
          · simpa only [dedupDocs, hlt, if_pos, hu, hu0, if_true] using ih seenL seenU
          · by_cases hs : seenL.contains u = true
            · simpa only [dedupDocs, hlt, if_pos, hu, hu0, hs, if_false, if_true] using
                ih seenL seenU
            · have hs' : seenL.contains u = false := by simpa using hs
              have hrec : dedupDocs seenL seenU (some doc :: rest) =
                  ((doc :: (dedupDocs (u :: seenL) seenU rest).1),
                   (dedupDocs (u :: seenL) seenU rest).2) := by
                simp [dedupDocs, hlt, hu, hu0, hs']
                intro hmem
                exact absurd (by simpa using hmem : seenL.contains u = true) hs
              obtain ⟨n1, n2, n3, n4, n5⟩ := ih (u :: seenL) seenU
              rw [hrec]
              refine ⟨?_, ?_, ?_, n4, n5⟩
              · simp only [List.filterMap_cons, hu]
                rw [List.nodup_cons]
                refine ⟨?_, n1⟩
                intro hmem
                have := n2 u hmem
                simp [List.contains_cons] at this
              · intro v hv
                simp only [List.filterMap_cons, hu, List.mem_cons] at hv
                rcases hv with rfl | hv
                · simpa using hs
                · have := n2 v hv
                  simp only [List.contains_cons, Bool.or_eq_false_iff] at this
                  exact this.2
              · intro d hd
                rcases List.mem_cons.mp hd with rfl | hd
                · simp [hu]
                · exact n3 d hd
      · by_cases hul : doc.link_type = some "unlinked"
        · cases hn : doc.document_name with
          | none => simpa only [dedupDocs, hlt, hul, if_pos, if_neg, hn] using ih seenL seenU
          | some n =>
            by_cases hn0 : n = ""
            · simpa only [dedupDocs, hlt, hul, if_pos, if_neg, hn, hn0, if_true] using
                ih seenL seenU
            · by_cases hs : seenU.contains (lowerL n) = true
              · simpa only [dedupDocs, hlt, hul, if_pos, if_neg, hn, hn0, hs, if_false,
                  if_true] using ih seenL seenU
              · have hs' : seenU.contains (lowerL n) = false := by simpa using hs
                have hrec : dedupDocs seenL seenU (some doc :: rest) =
                    ((dedupDocs seenL (lowerL n :: seenU) rest).1,
                     doc :: (dedupDocs seenL (lowerL n :: seenU) rest).2) := by
                  simp [dedupDocs, hlt, hul, hn, hn0, hs']
                  intro hmem
                  exact absurd (by simpa using hmem : seenU.contains (lowerL n) = true) hs
                obtain ⟨n1, n2, n3, n4, n5⟩ := ih seenL (lowerL n :: seenU)
                rw [hrec]
                refine ⟨n1, n2, n3, ?_, ?_⟩
                · simp only [List.map_cons, hn, Option.getD_some]
                  rw [List.nodup_cons]
                  refine ⟨?_, n4⟩
                  intro hmem
                  have := n5 (lowerL n) hmem
                  simp [List.contains_cons] at this
                · intro k hk
                  simp only [List.map_cons, hn, Option.getD_some, List.mem_cons] at hk
                  rcases hk with rfl | hk
                  · simpa using hs
                  · have := n5 k hk
                    simp only [List.contains_cons, Bool.or_eq_false_iff] at this
                    exact this.2
        · simpa only [dedupDocs, hlt, hul, if_neg] using ih seenL seenU

/-- C3: the stage-2 de-duplication over the concatenated legal and
security discovery passes yields a linked list in which each URL occurs
at most once and none of the pre-seeded main URLs occurs at all, and an
unlinked list in which each lower-cased document name occurs at most
once. -/
theorem c3_dedup_unique (legal_urls security_urls : List String) (allDocs : List DiscItem) :
    ((dedupMain legal_urls security_urls allDocs).1.filterMap DiscDoc.absolute_url).Nodup ∧
    (∀ u ∈ (dedupMain legal_urls security_urls allDocs).1.filterMap DiscDoc.absolute_url,
      (seedUrls legal_urls security_urls).contains u = false) ∧
    ((dedupMain legal_urls security_urls allDocs).2.map
      (fun d => lowerL (d.document_name.getD ""))).Nodup := by
  obtain ⟨n1, n2, _, n4, _⟩ :=
    dedupDocs_invariant allDocs (seedUrls legal_urls security_urls) []
  exact ⟨n1, n2, n4⟩

/-- C3 witness: a concrete overlapping pair of passes, with the seed URL
re-reported by the spider; the de-duplicated output never readmits the
seed. -/
theorem c3_dedup_witness :
    (seedUrls ["https://v.example/tc"] []).contains "https://v.example/dpa" = false := by
  have h := (c3_dedup_unique ["https://v.example/tc"] []
    [some ⟨some "linked", some "https://v.example/dpa", some "DPA", some "relevant", none⟩,
     some ⟨some "linked", some "https://v.example/dpa", some "DPA", some "relevant", none⟩,
     some ⟨some "linked", some "https://v.example/tc", some "T&Cs", some "relevant", none⟩]).2.1
  exact h "https://v.example/dpa" (by decide)

/-! ## Claim C4 -/

theorem processLinkedDocs_unfold (oracle : Option String → RunOutcome) (issue : String)
    (d : DiscDoc) (ds : List DiscDoc) (st : FetchState) :
    processLinkedDocs oracle issue (d :: ds) st =
      processLinkedDocs oracle issue ds (processOneLinkedDoc oracle issue d st) := by
  simp [processLinkedDocs]

theorem processOneLinkedDoc_parts (oracle : Option String → RunOutcome) (issue : String)
    (d : DiscDoc) (st : FetchState) :
    (processOneLinkedDoc oracle issue d st).fetched = st.fetched ++ [d.absolute_url] ∧
    (processOneLinkedDoc oracle issue d st).entries = st.entries ++ [entryOf oracle d] := by
  constructor <;> rfl

theorem processLinkedDocs_parts (oracle : Option String → RunOutcome) (issue : String)
    (docs : List DiscDoc) : ∀ st : FetchState,
    (processLinkedDocs oracle issue docs st).fetched =
      st.fetched ++ docs.map DiscDoc.absolute_url ∧
    (processLinkedDocs oracle issue docs st).entries =
      st.entries ++ docs.map (entryOf oracle) := by
  induction docs with
  | nil => intro st; simp [processLinkedDocs]
  | cons d ds ih =>
    intro st
    rw [processLinkedDocs_unfold]
    obtain ⟨hf, he⟩ := ih (processOneLinkedDoc oracle issue d st)
    obtain ⟨hf1, he1⟩ := processOneLinkedDoc_parts oracle issue d st
    constructor
    · rw [hf, hf1]; simp
    · rw [he, he1]; simp

/-- C4 (amended): the stage-2 loop invokes the remote fetch/classify task
for every unique linked document, in order — the invoked-URL list is
exactly the document-URL list, and the checklist entries are a function
of the documents and the classifier oracle only.  In particular neither
depends on which files already exist on disk: there is no
existing-file skip. -/
theorem c4_always_fetches (oracle : Option String → RunOutcome) (issue : String)
    (docs : List DiscDoc) (st : FetchState) :
    (processLinkedDocs oracle issue docs st).fetched =
      st.fetched ++ docs.map DiscDoc.absolute_url ∧
    (processLinkedDocs oracle issue docs st).entries =
      st.entries ++ docs.map (entryOf oracle) :=
  processLinkedDocs_parts oracle issue docs st

/-- C4 counterexample: a document whose deterministic filename
(`issue-46-Terms.txt`) already names a file on disk is still fetched
(its URL appears in the invoked list) and is marked with the discovery
status `irrelevant`, not `existing_file`/`relevant`. -/
theorem c4_no_skip_counterexample :
    create_safe_filename "Terms" "46" = "issue-46-Terms.txt" ∧
    (processLinkedDocs (fun _ => ⟨false, "fresh text", none⟩) "46"
      [⟨some "linked", some "https://v.example/terms", some "Terms", some "irrelevant", none⟩]
      ⟨⟨[("issue-46-Terms.txt", "cached text")], []⟩, [], []⟩).fetched =
      [some "https://v.example/terms"] ∧
    (processLinkedDocs (fun _ => ⟨false, "fresh text", none⟩) "46"
      [⟨some "linked", some "https://v.example/terms", some "Terms", some "irrelevant", none⟩]
      ⟨⟨[("issue-46-Terms.txt", "cached text")], []⟩, [], []⟩).entries.map
        ChecklistEntry.relevance_status = ["irrelevant"] := by
  refine ⟨by decide, by decide, by decide⟩

/-! ## Claim C5 -/

/-- C5 (amended): `discover_documents.main` performs no orphan
reconciliation — the final rendered checklist is computed purely from the
seed URLs, the discovery output and the classifier responses of the
current run, and is the same whatever files already sit in
`_vendor_analysis_source`. -/
theorem c5_checklist_disk_independent (oracle : Option String → RunOutcome)
    (repo issue : String) (legal security : List String) (allDocs : List DiscItem)
    (fs1 fs2 : FileSys) :
    (discoverStage2Checklist oracle repo issue legal security allDocs fs1).2 =
    (discoverStage2Checklist oracle repo issue legal security allDocs fs2).2 := by
  unfold discoverStage2Checklist
  simp only []
  rw [(processLinkedDocs_parts oracle issue (dedupMain legal security allDocs).1
        ⟨fs1, [], []⟩).2,
      (processLinkedDocs_parts oracle issue (dedupMain legal security allDocs).1
        ⟨fs2, [], []⟩).2]

/-- C5 counterexample: a file on disk that matches the issue's naming
convention (`issue-46-Old_Contract.txt`) but is not touched by the
current run does not appear in the rendered checklist at all — neither
its name nor any "Previously Discovered" tag occurs in the output, which
the claim says it must. -/
theorem c5_no_orphan_counterexample :
    "issue-46-".data.isPrefixOf "issue-46-Old_Contract.txt".data = true ∧
    (discoverStage2Checklist (fun _ => ⟨false, "t", none⟩) "org/repo" "46"
        ["https://v.example/tc"] [] [] ⟨[("issue-46-Old_Contract.txt", "old text")], []⟩).1.files =
      [("issue-46-Old_Contract.txt", "old text")] ∧
    containsSub "Old_Contract".data
      ((discoverStage2Checklist (fun _ => ⟨false, "t", none⟩) "org/repo" "46"
        ["https://v.example/tc"] [] [] ⟨[("issue-46-Old_Contract.txt", "old text")], []⟩).2) =
      false ∧
    containsSub "Previously Discovered".data
      ((discoverStage2Checklist (fun _ => ⟨false, "t", none⟩) "org/repo" "46"
        ["https://v.example/tc"] [] [] ⟨[("issue-46-Old_Contract.txt", "old text")], []⟩).2) =
      false := by
  refine ⟨by decide, by decide, by decide, by decide⟩

/-! ## Claim C6 -/

theorem take_boxMark (c : Char) (r : List Char) :
    (boxMark c ++ r).take 6 = boxMark c := by
  have h : (boxMark c).length = 6 := by simp [boxMark]
  rw [← h, List.take_left]

theorem boxMark_inj (a b : Char) : boxMark a = boxMark b ↔ a = b := by
  simp [boxMark]

theorem renderClassifiedItem_take (repo issue : String) (e : ChecklistEntry) (u : String) :
    (renderClassifiedItem repo issue e u).take 6 =
      boxMark (checkboxChar e.relevance_status) := by
  simp only [renderClassifiedItem, List.append_assoc]
  exact take_boxMark _ _

theorem checkboxChar_eq_x_iff (s : String) : checkboxChar s = 'x' ↔ s = "relevant" := by
  by_cases h : s = "relevant"
  · simp [checkboxChar, h]
  · simp only [checkboxChar, if_neg h]
    constructor
    · intro hc; exact absurd hc (by decide)
    · intro hc; exact absurd hc h

/-- C6 (amended): in `format_documents_as_checklist` the checkbox of a
classified document depends only on the discovery `relevance_status`:
`[x]` exactly when it is `"relevant"`, and `[ ]` otherwise (including
`"irrelevant"`, `"check_manually"`, or a missing status, which defaults
to `"irrelevant"`).  Missing relevance categories affect only the tag,
not the checkbox.  The human-provided main T&Cs and main Security lines
always render `[x]`, and unlinked references always render `[ ]`. -/
theorem c6_checkbox_rendering (repo issue : String) (e : ChecklistEntry) (u url : String)
    (d : DiscDoc) :
    ((renderClassifiedItem repo issue e u).take 6 = boxMark 'x' ↔
      e.relevance_status = "relevant") ∧
    ((renderClassifiedItem repo issue e u).take 6 = boxMark ' ' ↔
      ¬ e.relevance_status = "relevant") ∧
    (renderMainLegalItem repo issue url).take 6 = boxMark 'x' ∧
    (renderMainSecurityItem repo issue url).take 6 = boxMark 'x' ∧
    (renderUnlinkedItem d).take 6 = boxMark ' ' := by
  refine ⟨?_, ?_, ?_, ?_, ?_⟩
  · rw [renderClassifiedItem_take, boxMark_inj]
    exact checkboxChar_eq_x_iff e.relevance_status
  · rw [renderClassifiedItem_take, boxMark_inj]
    by_cases h : e.relevance_status = "relevant"
    · simp [checkboxChar, h]
    · simp [checkboxChar, h]
  · simp only [renderMainLegalItem, List.append_assoc]
    exact take_boxMark _ _
  · simp only [renderMainSecurityItem, List.append_assoc]
    exact take_boxMark _ _
  · simp only [renderUnlinkedItem, List.append_assoc]
    exact take_boxMark _ _

/-- C6 witness: a relevant entry renders pre-checked. -/
theorem c6_checkbox_witness :
    (renderClassifiedItem "org/repo" "46"
      ⟨"DPA", some "https://v.example/dpa", "relevant", [CatItem.cdict (some "legal")]⟩
      "https://v.example/dpa").take 6 = boxMark 'x' :=
  (c6_checkbox_rendering "org/repo" "46"
    ⟨"DPA", some "https://v.example/dpa", "relevant", [CatItem.cdict (some "legal")]⟩
    "https://v.example/dpa" "u" ⟨none, none, none, none, none⟩).1.mpr rfl

/-- C6 counterexample: a classified document with missing relevance
categories but `relevance_status = "relevant"` renders with a checked
box `- [x] **None**: ...` — the claim says missing categories force an
unchecked box, yet the produced checklist has no unchecked box at all. -/
theorem c6_missing_categories_counterexample :
    containsSub "- [x] **None**: [`Doc`]".data
      (format_documents_as_checklist []
        [⟨"Doc", some "https://v.example/d", "relevant", []⟩] [] [] "org/repo" "46") = true ∧
    containsSub "- [ ] ".data
      (format_documents_as_checklist []
        [⟨"Doc", some "https://v.example/d", "relevant", []⟩] [] [] "org/repo" "46") = false := by
  exact ⟨by decide, by decide⟩

/-! ## Claim C9 -/

/-- C9 (amended): the four `run_rb_task` versions do not share one error
contract.  The versions in `utils/rightbrain_api.py` and
`scripts/rightbrain_api.py` return the full decoded JSON on success and a
tagged `is_error: true` object on any transport or non-2xx failure,
never raising.  The version in `scripts/consolidate_and_analyze.py`
returns only the `response` field on success and a `{error, details}`
object without `is_error` on failure.  The version in
`scripts/update_existing_vendor.py` raises on any failure. -/
theorem c9_run_rb_task_versions :
    (∀ (tid : String) (s : Nat) (b : JVal), tid ≠ "" → s < 400 →
      utils_run_rb_task tid (.httpResponse s b) = b) ∧
    (∀ (tid : String) (o : HttpOutcome), o.isFailure = true →
      (utils_run_rb_task tid o).isErrorTagged = true) ∧
    (∀ (o : HttpOutcome), (utils_run_rb_task "" o).isErrorTagged = true) ∧
    (∀ (nm tid : String) (s : Nat) (b : JVal), tid ≠ "" → s < 400 →
      scripts_run_rb_task nm tid (.httpResponse s b) = b) ∧
    (∀ (nm tid : String) (o : HttpOutcome), o.isFailure = true →
      (scripts_run_rb_task nm tid o).isErrorTagged = true) ∧
    (∀ (nm : String) (s : Nat) (b : JVal), s < 400 →
      consolidate_run_rb_task nm (.httpResponse s b) = b.getField "response" (.jobj [])) ∧
    (∀ (nm : String) (o : HttpOutcome), o.isFailure = true →
      (consolidate_run_rb_task nm o).isErrorTagged = false ∧
      (consolidate_run_rb_task nm o).hasKey "error" = true ∧
      (consolidate_run_rb_task nm o).hasKey "details" = true) ∧
    (∀ (o : HttpOutcome), raisesExn (update_existing_run_rb_task o) = o.isFailure) := by
  refine ⟨?_, ?_, ?_, ?_, ?_, ?_, ?_, ?_⟩
  · intro tid s b htid hs
    simp [utils_run_rb_task, htid, Nat.not_le.mpr hs]
  · intro tid o ho
    by_cases htid : tid = ""
    · subst htid
      cases o <;> simp [utils_run_rb_task, JVal.isErrorTagged, JVal.getField, List.lookup]
    · cases o with
      | transportError m => simp [utils_run_rb_task, htid, JVal.isErrorTagged, JVal.getField, List.lookup]
      | httpResponse s b =>
        have hs : 400 ≤ s := by simpa [HttpOutcome.isFailure] using ho
        simp [utils_run_rb_task, htid, hs, JVal.isErrorTagged, JVal.getField, List.lookup]
  · intro o
    simp [utils_run_rb_task, JVal.isErrorTagged, JVal.getField, List.lookup]
  · intro nm tid s b htid hs
    simp [scripts_run_rb_task, htid, Nat.not_le.mpr hs]
  · intro nm tid o ho
    by_cases htid : tid = ""
    · subst htid
      cases o <;> simp [scripts_run_rb_task, JVal.isErrorTagged, JVal.getField, List.lookup]
    · cases o with
      | transportError m => simp [scripts_run_rb_task, htid, JVal.isErrorTagged, JVal.getField, List.lookup]
      | httpResponse s b =>
        have hs : 400 ≤ s := by simpa [HttpOutcome.isFailure] using ho
        simp [scripts_run_rb_task, htid, hs, JVal.isErrorTagged, JVal.getField, List.lookup]
  · intro nm s b hs
    simp [consolidate_run_rb_task, Nat.not_le.mpr hs]
  · intro nm o ho
    cases o with
    | transportError m =>
      refine ⟨?_, ?_, ?_⟩ <;>
        simp [consolidate_run_rb_task, JVal.isErrorTagged, JVal.getField, List.lookup, JVal.hasKey]
    | httpResponse s b =>
      have hs : 400 ≤ s := by simpa [HttpOutcome.isFailure] using ho
      refine ⟨?_, ?_, ?_⟩ <;>
        simp [consolidate_run_rb_task, hs, JVal.isErrorTagged, JVal.getField, List.lookup, JVal.hasKey]
  · intro o
    cases o with
    | transportError m => simp [update_existing_run_rb_task, raisesExn, HttpOutcome.isFailure]
    | httpResponse s b =>
      by_cases hs : 400 ≤ s
      · simp [update_existing_run_rb_task, raisesExn, HttpOutcome.isFailure, hs]
      · simp [update_existing_run_rb_task, raisesExn, HttpOutcome.isFailure, hs]

/-- C9 witness: concrete calls exercising success and failure paths. -/
theorem c9_run_rb_task_witness :
    utils_run_rb_task "tid-1" (.httpResponse 200 (.jobj [("response", .jnull)])) =
      .jobj [("response", .jnull)] ∧
    (utils_run_rb_task "tid-1" (.transportError "connection refused")).isErrorTagged = true := by
  constructor
  · exact c9_run_rb_task_versions.1 "tid-1" 200 (.jobj [("response", .jnull)])
      (by decide) (by decide)
  · exact c9_run_rb_task_versions.2.1 "tid-1" (.transportError "connection refused") rfl

/-- C9 counterexample: the claim fails for two of the repository's
`run_rb_task` versions — the `consolidate_and_analyze` one returns an
error object with no `is_error` key (and on success returns only the
`response` field, dropping the rest of the decoded JSON), and the
`update_existing_vendor` one raises on a 500 response instead of
returning a tagged error object. -/
theorem c9_untagged_counterexample :
    (consolidate_run_rb_task "Legal Analyzer" (.transportError "connection refused")).hasKey
      "is_error" = false ∧
    raisesExn (update_existing_run_rb_task (.httpResponse 500 (.jobj []))) = true ∧
    (consolidate_run_rb_task "Legal Analyzer"
      (.httpResponse 200 (.jobj [("response", .jobj []), ("run_data", .jstr "x")]))).hasKey
      "run_data" = false ∧
    JVal.hasKey (.jobj [("response", .jobj []), ("run_data", .jstr "x")]) "run_data" = true := by
  refine ⟨by decide, by decide, by decide, by decide⟩

/-! ## Claim C8 -/

theorem ciLeads_refl_append (p x : List Char) : ciLeads p (p ++ x) = true := by
  induction p with
  | nil => simp [ciLeads]
  | cons c cs ih => simp [ciLeads, ciEq, ih]

theorem ciLeads_nil_false (pat : List Char) (h : pat ≠ []) : ciLeads pat [] = false := by
  cases pat with
  | nil => exact absurd rfl h
  | cons c cs => simp [ciLeads]

theorem isPrefixOf_append_left (p : List Char) :
    ∀ (w z : List Char), p.length ≤ w.length → (p.isPrefixOf (w ++ z)) = p.isPrefixOf w := by
  induction p with
  | nil => intro w z _; simp [List.isPrefixOf]
  | cons a ps ih =>
    intro w z hlen
    cases w with
    | nil => simp at hlen
    | cons b ws =>
      simp only [List.cons_append, List.isPrefixOf, List.append_eq]
      rw [ih ws z (by simpa using hlen)]

theorem isPrefixOf_self_append (p t : List Char) : p.isPrefixOf (p ++ t) = true := by
  induction p with
  | nil => simp [List.isPrefixOf]
  | cons a ps ih => simp [List.isPrefixOf, ih]

theorem containsSub_of_suffix (p w v : List Char) (h1 : p.isPrefixOf w = true)
    (h2 : w <:+ v) : containsSub p v = true := by
  obtain ⟨t, rfl⟩ := h2
  induction t with
  | nil =>
    cases w with
    | nil =>
      cases p with
      | nil => simp [containsSub]
      | cons a ps => simp [List.isPrefixOf] at h1
    | cons c rest => simp [containsSub, h1]
  | cons x t' ih => simp [containsSub, ih]

theorem mkNoStop (v rest : List Char) (hsub : containsSub "\n### ".data v = false) :
    ∀ u, u ≠ [] → u <:+ v →
      ("\n### ".data).isPrefixOf (u ++ ("\n### ".data ++ rest)) = false := by
  intro u hne hsuf
  by_cases hlen : 5 ≤ u.length
  · rw [isPrefixOf_append_left _ _ _ (by simpa using hlen)]
    cases hpre : ("\n### ".data).isPrefixOf u with
    | false => rfl
    | true => exact absurd (containsSub_of_suffix _ _ _ hpre hsuf) (by simp [hsub])
  · match u, hne with
    | [a], _ => simp [List.isPrefixOf]
    | [a, b], _ => simp [List.isPrefixOf]
    | [a, b, c], _ => simp [List.isPrefixOf]
    | [a, b, c, d], _ => simp [List.isPrefixOf]
    | a :: b :: c :: d :: e :: u6, _ => exact absurd (by simp) hlen

theorem captureUntil_append (v rest : List Char)
    (h : ∀ u, u ≠ [] → u <:+ v →
      ("\n### ".data).isPrefixOf (u ++ ("\n### ".data ++ rest)) = false) :
    captureUntil (v ++ ("\n### ".data ++ rest)) = v := by
  induction v with
  | nil =>
    have he : ([] : List Char) ++ ("\n### ".data ++ rest) =
        '\n' :: ("### ".data ++ rest) := rfl
    rw [he]
    simp only [captureUntil]
    have hp : ("\n### ".data).isPrefixOf ('\n' :: ("### ".data ++ rest)) = true := by
      have : '\n' :: ("### ".data ++ rest) = "\n### ".data ++ rest := rfl
      rw [this]
      exact isPrefixOf_self_append _ _
    rw [hp]
    simp
  | cons a v' ih =>
    have he : (a :: v') ++ ("\n### ".data ++ rest) =
        a :: (v' ++ ("\n### ".data ++ rest)) := rfl
    rw [he]
    simp only [captureUntil]
    have hp := h (a :: v') (by simp) (List.suffix_refl _)
    rw [show (a :: v') ++ ("\n### ".data ++ rest) = a :: (v' ++ ("\n### ".data ++ rest))
      from rfl] at hp
    rw [hp]
    simp only [Bool.false_eq_true, if_false, List.cons.injEq, true_and]
    exact ih (fun u hu hsuf => h u hu (hsuf.trans (List.suffix_cons a v')))

theorem takeWhile_append_nil {p : Char → Bool} {v : List Char} (x : List Char)
    (hv : v.takeWhile p = []) (hne : v ≠ []) : (v ++ x).takeWhile p = [] := by
  cases v with
  | nil => exact absurd rfl hne
  | cons a v' =>
    rw [List.takeWhile_cons] at hv
    rw [List.cons_append, List.takeWhile_cons]
    by_cases hp : p a
    · simp [hp] at hv
    · simp [hp]

theorem dropWhile_of_takeWhile_nil {p : Char → Bool} {v : List Char}
    (hv : v.takeWhile p = []) : v.dropWhile p = v := by
  cases v with
  | nil => rfl
  | cons a v' =>
    rw [List.takeWhile_cons] at hv
    by_cases hp : p a
    · simp [hp] at hv
    · rw [List.dropWhile_cons_of_neg (by simpa using hp)]

theorem pyStrip_eq_self {v : List Char} (h1 : v.takeWhile pySpace = [])
    (h2 : v.reverse.takeWhile pySpace = []) : pyStrip pySpace v = v := by
  unfold pyStrip
  rw [dropWhile_of_takeWhile_nil h1, dropWhile_of_takeWhile_nil h2, List.reverse_reverse]

theorem afterHeadingWs_seed (v x : List Char) (hv : v.takeWhile pySpace = [])
    (hne : v ≠ []) : afterHeadingWs ('\n' :: (v ++ x)) = some (v ++ x) := by
  have hrun : ('\n' :: (v ++ x)).takeWhile pySpace = ['\n'] := by
    rw [List.takeWhile_cons, takeWhile_append_nil x hv hne]
    decide
  unfold afterHeadingWs
  rw [hrun]
  simp [List.drop]

theorem searchHeading_append (pat tail rem : List Char) (hpat : pat ≠ [])
    (h : afterHeadingWs tail = some rem) : searchHeading pat (pat ++ tail) = some rem := by
  cases pat with
  | nil => exact absurd rfl hpat
  | cons p ps =>
    have he : (p :: ps) ++ tail = p :: (ps ++ tail) := rfl
    rw [he]
    simp only [searchHeading]
    have hci : ciLeads (p :: ps) (p :: (ps ++ tail)) = true := by
      rw [← he]; exact ciLeads_refl_append _ _
    rw [hci]
    simp only [if_true]
    rw [← he, List.drop_left, h]

theorem searchHeading_eq_none (pat : List Char) :
    ∀ body : List Char, (∀ i, ciLeads pat (body.drop i) = false) →
      searchHeading pat body = none := by
  intro body
  induction body with
  | nil => intro _; simp [searchHeading]
  | cons c rest ih =>
    intro h
    have h0 := h 0
    simp only [List.drop_zero] at h0
    simp only [searchHeading, h0, Bool.false_eq_true, if_false]
    exact ih (fun i => by simpa using h (i + 1))


theorem takeWhile_all_append {p : Char → Bool} (xs ys : List Char)
    (h : ∀ c ∈ xs, p c = true) : (xs ++ ys).takeWhile p = xs ++ ys.takeWhile p := by
  induction xs with
  | nil => simp
  | cons a xs' ih =>
    have ha : p a = true := h a (List.mem_cons_self a xs')
    rw [List.cons_append, List.takeWhile_cons, ha, if_pos rfl,
      ih (fun c hc => h c (List.mem_cons_of_mem a hc)), List.cons_append]

theorem dropWhile_all_append {p : Char → Bool} (xs ys : List Char)
    (h : ∀ c ∈ xs, p c = true) : (xs ++ ys).dropWhile p = ys.dropWhile p := by
  induction xs with
  | nil => simp
  | cons a xs' ih =>
    have ha : p a = true := h a (List.mem_cons_self a xs')
    rw [List.cons_append, List.dropWhile_cons_of_pos ha,
      ih (fun c hc => h c (List.mem_cons_of_mem a hc))]

theorem captureUntil_of_not_contains (s : List Char)
    (h : containsSub "\n### ".data s = false) : captureUntil s = s := by
  induction s with
  | nil => rfl
  | cons c rest ih =>
    simp only [containsSub, Bool.or_eq_false_iff] at h
    simp only [captureUntil, h.1, Bool.false_eq_true, if_false]
    rw [ih h.2]

theorem pyStrip_append_ws {v : List Char} (tw : List Char)
    (h1 : v.takeWhile pySpace = []) (h2 : v.reverse.takeWhile pySpace = [])
    (h3 : v ≠ []) (htw : ∀ c ∈ tw, pySpace c = true) :
    pyStrip pySpace (v ++ tw) = v := by
  unfold pyStrip
  rw [dropWhile_of_takeWhile_nil (takeWhile_append_nil tw h1 h3), List.reverse_append,
    dropWhile_all_append tw.reverse v.reverse (fun c hc => htw c (List.mem_reverse.mp hc)),
    dropWhile_of_takeWhile_nil h2, List.reverse_reverse]

theorem afterHeadingWs_padded (lw v y : List Char) (hlw : ∀ c ∈ lw, pySpace c = true)
    (hv : v.takeWhile pySpace = []) (hne : v ≠ []) :
    ∃ lw2 : List Char, (∀ c ∈ lw2, pySpace c = true) ∧
      afterHeadingWs ('\n' :: (lw ++ (v ++ y))) = some (lw2 ++ (v ++ y)) := by
  have hnl : pySpace '\n' = true := by decide
  have hrun : ('\n' :: (lw ++ (v ++ y))).takeWhile pySpace = '\n' :: lw := by
    rw [List.takeWhile_cons, hnl, if_pos rfl, takeWhile_all_append lw _ hlw,
      takeWhile_append_nil _ hv hne, List.append_nil]
  refine ⟨(('\n' :: lw).reverse.takeWhile (fun c => c != '\n')).reverse, ?_, ?_⟩
  · intro c hc
    rw [List.mem_reverse] at hc
    have hc2 := (List.takeWhile_sublist _).subset hc
    rw [List.mem_reverse] at hc2
    rcases List.mem_cons.mp hc2 with rfl | hc3
    · decide
    · exact hlw c hc3
  · unfold afterHeadingWs
    rw [hrun]
    have hcont : ('\n' :: lw).contains '\n' = true := by simp
    show (if ('\n' :: lw).contains '\n' = true then
        some (List.drop (('\n' :: lw).length -
          (List.takeWhile (fun c => c != '\n') ('\n' :: lw).reverse).length)
          ('\n' :: (lw ++ (v ++ y))))
      else none) =
      some ((List.takeWhile (fun c => c != '\n') ('\n' :: lw).reverse).reverse ++ (v ++ y))
    rw [hcont, if_pos rfl]
    congr 1
    set t := ('\n' :: lw).reverse.takeWhile (fun c => c != '\n') with htdef
    set d := ('\n' :: lw).reverse.dropWhile (fun c => c != '\n') with hddef
    have hsplitrev : ('\n' :: lw).reverse = t ++ d :=
      (List.takeWhile_append_dropWhile (fun c => c != '\n') ('\n' :: lw).reverse).symm
    have hsplit : ('\n' :: lw) = d.reverse ++ t.reverse := by
      rw [← List.reverse_reverse ('\n' :: lw), hsplitrev, List.reverse_append]
    have hlen : ('\n' :: lw).length - t.length = d.length := by
      have hl : ('\n' :: lw).length = t.length + d.length := by
        have := congrArg List.length hsplitrev
        simpa [List.length_append] using this
      omega
    rw [hlen]
    have hbody : ('\n' :: (lw ++ (v ++ y))) = d.reverse ++ (t.reverse ++ (v ++ y)) := by
      rw [show ('\n' :: (lw ++ (v ++ y))) = ('\n' :: lw) ++ (v ++ y) from rfl, hsplit,
        List.append_assoc]
    rw [hbody, show d.length = d.reverse.length from (List.length_reverse _).symm,
      List.drop_left]

theorem searchHeading_skip (pat : List Char) :
    ∀ (pre x : List Char), (∀ i, i < pre.length → ciLeads pat ((pre ++ x).drop i) = false) →
      searchHeading pat (pre ++ x) = searchHeading pat x := by
  intro pre
  induction pre with
  | nil => intro x _; rfl
  | cons c pre' ih =>
    intro x h
    have h0 := h 0 (by simp)
    rw [List.drop_zero, List.cons_append] at h0
    rw [List.cons_append]
    simp only [searchHeading, h0, Bool.false_eq_true, if_false]
    exact ih x (fun i hi => by
      have hd := h (i + 1) (by simpa using Nat.succ_lt_succ hi)
      rw [List.cons_append] at hd
      simpa using hd)

theorem parse_extract_with_boundary (pre L lw v tw rest : List Char)
    (hpre : ∀ i, i < pre.length → ciLeads ("### ".data ++ L)
      ((pre ++ (("### ".data ++ L) ++
        ('\n' :: (lw ++ (v ++ (tw ++ ("\n### ".data ++ rest))))))).drop i) = false)
    (hlw : ∀ c ∈ lw, pySpace c = true) (htw : ∀ c ∈ tw, pySpace c = true)
    (h1 : v.takeWhile pySpace = []) (h2 : v.reverse.takeWhile pySpace = []) (h3 : v ≠ [])
    (h4 : containsSub "\n### ".data (v ++ tw) = false) :
    parse_form_field
      (String.mk (pre ++ (("### ".data ++ L) ++
        ('\n' :: (lw ++ (v ++ (tw ++ ("\n### ".data ++ rest))))))))
      (String.mk L) = String.mk (removeHtmlGo none v) := by
  obtain ⟨lw2, hlw2, hA⟩ :=
    afterHeadingWs_padded lw v (tw ++ ("\n### ".data ++ rest)) hlw h1 h3
  have hpat : ("### ".data ++ L) ≠ [] := by simp
  show (match searchHeading ("### ".data ++ L)
      (pre ++ (("### ".data ++ L) ++
        ('\n' :: (lw ++ (v ++ (tw ++ ("\n### ".data ++ rest))))))) with
    | none => "N/A"
    | some rem => String.mk (removeHtmlGo none (pyStrip pySpace
        (captureUntil (rem.drop ((rem.takeWhile pySpace).length)))))) =
    String.mk (removeHtmlGo none v)
  rw [searchHeading_skip _ _ _ hpre, searchHeading_append _ _ _ hpat hA]
  show String.mk (removeHtmlGo none (pyStrip pySpace
    (captureUntil ((lw2 ++ (v ++ (tw ++ ("\n### ".data ++ rest)))).drop
      (((lw2 ++ (v ++ (tw ++ ("\n### ".data ++ rest)))).takeWhile pySpace).length))))) = _
  rw [takeWhile_all_append lw2 _ hlw2, takeWhile_append_nil _ h1 h3, List.append_nil,
    List.drop_left]
  rw [show v ++ (tw ++ ("\n### ".data ++ rest)) = (v ++ tw) ++ ("\n### ".data ++ rest)
    from (List.append_assoc v tw _).symm]
  rw [captureUntil_append (v ++ tw) rest (mkNoStop (v ++ tw) rest h4),
    pyStrip_append_ws tw h1 h2 h3 htw]

theorem parse_extract_to_end (pre L lw v tw : List Char)
    (hpre : ∀ i, i < pre.length → ciLeads ("### ".data ++ L)
      ((pre ++ (("### ".data ++ L) ++ ('\n' :: (lw ++ (v ++ tw))))).drop i) = false)
    (hlw : ∀ c ∈ lw, pySpace c = true) (htw : ∀ c ∈ tw, pySpace c = true)
    (h1 : v.takeWhile pySpace = []) (h2 : v.reverse.takeWhile pySpace = []) (h3 : v ≠ [])
    (h4 : containsSub "\n### ".data (v ++ tw) = false) :
    parse_form_field
      (String.mk (pre ++ (("### ".data ++ L) ++ ('\n' :: (lw ++ (v ++ tw))))))
      (String.mk L) = String.mk (removeHtmlGo none v) := by
  obtain ⟨lw2, hlw2, hA⟩ := afterHeadingWs_padded lw v tw hlw h1 h3
  have hpat : ("### ".data ++ L) ≠ [] := by simp
  show (match searchHeading ("### ".data ++ L)
      (pre ++ (("### ".data ++ L) ++ ('\n' :: (lw ++ (v ++ tw))))) with
    | none => "N/A"
    | some rem => String.mk (removeHtmlGo none (pyStrip pySpace
        (captureUntil (rem.drop ((rem.takeWhile pySpace).length)))))) =
    String.mk (removeHtmlGo none v)
  rw [searchHeading_skip _ _ _ hpre, searchHeading_append _ _ _ hpat hA]
  show String.mk (removeHtmlGo none (pyStrip pySpace
    (captureUntil ((lw2 ++ (v ++ tw)).drop
      (((lw2 ++ (v ++ tw)).takeWhile pySpace).length))))) = _
  rw [takeWhile_all_append lw2 _ hlw2, takeWhile_append_nil _ h1 h3, List.append_nil,
    List.drop_left]
  rw [captureUntil_of_not_contains (v ++ tw) h4, pyStrip_append_ws tw h1 h2 h3 htw]

/-- C8 (amended): `parse_form_field` is total (it never raises) and obeys
three clauses.  For any body built from a prefix in which the heading
pattern never matches, the heading `### <label>`, a newline, a run of
whitespace, a non-empty value block free of a `"\n### "` boundary, a run
of trailing whitespace, and then either the next `"\n### "` heading or
the end of the string, it returns the value block — i.e. the text between
the heading and the next heading or end of string, trimmed of surrounding
whitespace — with HTML tags removed by `re.sub(r'<[^>]+>', '')`, not the
exact raw text.  And it returns the sentinel `"N/A"` whenever the heading
pattern matches nowhere in the body.  (Outside these shapes the code
departs from the original claim further: an empty value block lets the
greedy whitespace match swallow the boundary newline so the next
section's text is returned, and a heading not followed by any newline
yields `"N/A"` although the heading is present; both are exhibited in the
counterexample.) -/
theorem c8_parse_form_field_contract :
    (∀ (pre L lw v tw rest : List Char),
      ((List.range pre.length).all (fun i => !ciLeads ("### ".data ++ L)
        ((pre ++ (("### ".data ++ L) ++
          ('\n' :: (lw ++ (v ++ (tw ++ ("\n### ".data ++ rest))))))).drop i))) = true →
      (∀ c ∈ lw, pySpace c = true) → (∀ c ∈ tw, pySpace c = true) →
      v.takeWhile pySpace = [] → v.reverse.takeWhile pySpace = [] → v ≠ [] →
      containsSub "\n### ".data (v ++ tw) = false →
      parse_form_field
        (String.mk (pre ++ (("### ".data ++ L) ++
          ('\n' :: (lw ++ (v ++ (tw ++ ("\n### ".data ++ rest))))))))
        (String.mk L) = String.mk (removeHtmlGo none v)) ∧
    (∀ (pre L lw v tw : List Char),
      ((List.range pre.length).all (fun i => !ciLeads ("### ".data ++ L)
        ((pre ++ (("### ".data ++ L) ++ ('\n' :: (lw ++ (v ++ tw))))).drop i))) = true →
      (∀ c ∈ lw, pySpace c = true) → (∀ c ∈ tw, pySpace c = true) →
      v.takeWhile pySpace = [] → v.reverse.takeWhile pySpace = [] → v ≠ [] →
      containsSub "\n### ".data (v ++ tw) = false →
      parse_form_field
        (String.mk (pre ++ (("### ".data ++ L) ++ ('\n' :: (lw ++ (v ++ tw))))))
        (String.mk L) = String.mk (removeHtmlGo none v)) ∧
    (∀ (body label : String),
      ((List.range body.data.length).all
        (fun i => !ciLeads ("### ".data ++ label.data) (body.data.drop i))) = true →
      parse_form_field body label = "N/A") := by
  refine ⟨?_, ?_, ?_⟩
  · intro pre L lw v tw rest hb hlw htw h1 h2 h3 h4
    refine parse_extract_with_boundary pre L lw v tw rest ?_ hlw htw h1 h2 h3 h4
    intro i hi
    have := List.all_eq_true.mp hb i (List.mem_range.mpr hi)
    simpa using this
  · intro pre L lw v tw hb hlw htw h1 h2 h3 h4
    refine parse_extract_to_end pre L lw v tw ?_ hlw htw h1 h2 h3 h4
    intro i hi
    have := List.all_eq_true.mp hb i (List.mem_range.mpr hi)
    simpa using this
  · intro body label hb
    have hpat : ("### ".data ++ label.data) ≠ [] := by simp
    have hall : ∀ i, ciLeads ("### ".data ++ label.data) (body.data.drop i) = false := by
      intro i
      by_cases hi : i < body.data.length
      · have := List.all_eq_true.mp hb i (List.mem_range.mpr hi)
        simpa using this
      · rw [List.drop_eq_nil_of_le (by omega)]
        exact ciLeads_nil_false _ hpat
    show (match searchHeading ("### ".data ++ label.data) body.data with
      | none => "N/A"
      | some rem => String.mk (removeHtmlGo none (pyStrip pySpace
          (captureUntil (rem.drop ((rem.takeWhile pySpace).length)))))) = "N/A"
    rw [searchHeading_eq_none _ body.data hall]

/-- C8 witness: the boundary clause (with a non-matching prefix, padding
and an HTML tag), the end-of-string clause, and the absent-heading
clause, each at a concrete issue body. -/
theorem c8_parse_form_field_witness :
    parse_form_field "intro\n### Supplier Name\n Acme <b>Corp</b> \n### Data Processor\nYes"
      "Supplier Name" = "Acme Corp" ∧
    parse_form_field "### Notes\n  Final value" "Notes" = "Final value" ∧
    parse_form_field "no headings at all" "Supplier Name" = "N/A" := by
  refine ⟨?_, ?_, ?_⟩
  · have h := c8_parse_form_field_contract.1 "intro\n".data "Supplier Name".data
      [' '] "Acme <b>Corp</b>".data [' '] "Data Processor\nYes".data
      (by decide) (by simp [pySpace]) (by simp [pySpace])
      (by decide) (by decide) (by decide) (by decide)
    have e1 : String.mk ("intro\n".data ++ (("### ".data ++ "Supplier Name".data) ++
        ('\n' :: ([' '] ++ ("Acme <b>Corp</b>".data ++
          ([' '] ++ ("\n### ".data ++ "Data Processor\nYes".data))))))) =
        "intro\n### Supplier Name\n Acme <b>Corp</b> \n### Data Processor\nYes" := by decide
    have e2 : String.mk "Supplier Name".data = "Supplier Name" := by decide
    have e3 : String.mk (removeHtmlGo none "Acme <b>Corp</b>".data) = "Acme Corp" := by decide
    rw [e1, e2, e3] at h
    exact h
  · have h := c8_parse_form_field_contract.2.1 [] "Notes".data [' ', ' ']
      "Final value".data [] (by decide) (by simp [pySpace]) (by simp)
      (by decide) (by decide) (by decide) (by decide)
    have e1 : String.mk (([] : List Char) ++ (("### ".data ++ "Notes".data) ++
        ('\n' :: ([' ', ' '] ++ ("Final value".data ++ ([] : List Char)))))) =
        "### Notes\n  Final value" := by decide
    have e2 : String.mk "Notes".data = "Notes" := by decide
    have e3 : String.mk (removeHtmlGo none "Final value".data) = "Final value" := by decide
    rw [e1, e2, e3] at h
    exact h
  · exact c8_parse_form_field_contract.2.2 "no headings at all" "Supplier Name" (by decide)

/-- C8 counterexample: three concrete divergences from the claim's
"exactly the trimmed text between the heading and the next heading,
N/A only when the heading is absent".  HTML tags are deleted from the
block; an empty block yields the next section's text (the greedy `\s*\n`
swallows the boundary newline the lookahead would need) instead of the
empty string; and a heading with nothing after it yields `"N/A"` even
though the heading is present in the body. -/
theorem c8_exact_text_counterexample :
    parse_form_field "### A\nhello <b>world</b>" "A" = "hello world" ∧
    "hello world" ≠ "hello <b>world</b>" ∧
    parse_form_field "### A\n\n### B\nx" "A" = "### B\nx" ∧
    "### B\nx" ≠ "" ∧
    parse_form_field "intro ### A" "A" = "N/A" ∧
    containsSub "### A".data "intro ### A".data = true := by
  refine ⟨by decide, by decide, by decide, by decide, by decide, by decide⟩
